import Mathlib

/-!
Verification of the `smaller_vec` crate: a growable vector whose `len` and
`cap` fields use a configurable narrow unsigned integer width `w`
(the `Int` trait of `src/int_trait.rs`, implemented for u8/u16/u32).

The heap buffer is modelled as a `List (Option α)` of length `cap`;
`none` marks an uninitialized slot.  Machine integers of width `w` are
natural numbers reduced mod `2 ^ w` exactly where the Rust code performs
unchecked (release-mode wrapping) arithmetic.  A Rust panic is modelled
as `some Fatal` paired with the state as it stands when the panic is
raised (mutations performed before the panic persist).
-/

namespace SmallerVecModel

/-- `MAX` of the narrow integer of width `w` (`Int::MAX` in src/int_trait.rs). -/
def MAX (w : Nat) : Nat := 2 ^ w - 1

/-- Unchecked `Int::add` (src/int_trait.rs line 30): `self + rhs`, wrapping at
width `w` in release mode. -/
def intAdd (w x y : Nat) : Nat := (x + y) % 2 ^ w

/-- Unchecked `Int::sub` (src/int_trait.rs line 26): `self - rhs`, wrapping at
width `w` in release mode. -/
def intSub (w x y : Nat) : Nat := (x + 2 ^ w - y % 2 ^ w) % 2 ^ w

/-- `Int::saturating_add` (src/int_trait.rs line 42). -/
def intSatAdd (w x y : Nat) : Nat := min (x + y) (MAX w)

/-- `Int::from_usize` (src/int_trait.rs line 46): `val as Self` truncates. -/
def intFromUsize (w v : Nat) : Nat := v % 2 ^ w

/-- The fatal (panicking) outcomes of the crate. -/
inductive Fatal where
  /-- `assert_failed` (src/lib.rs line 192): index precondition violation. -/
  | assertFailed (index len : Nat) : Fatal
  /-- `capacity_overflow` (src/lib.rs line 213). -/
  | capacityOverflow : Fatal
deriving DecidableEq, Repr

/-- `SmallerVec<T, Limit>` (src/lib.rs line 44).  The raw allocation behind
`ptr` is modelled as `buf`, a list of `cap` slots; `none` is an
uninitialized slot. -/
structure SmallerVec (α : Type) where
  buf : List (Option α)
  len : Nat
  cap : Nat
deriving DecidableEq, Repr

/-- `SmallerVec::new` / `new_unallocated` (src/lib.rs line 100). -/
def new (α : Type) : SmallerVec α := ⟨[], 0, 0⟩

/-- `FIRST_ALLOC_SIZE` (src/lib.rs line 53), as a function of
`size_of::<T>()`. -/
def FIRST_ALLOC_SIZE (sz : Nat) : Nat :=
  if sz = 1 then 8 else if sz ≤ 1024 then 4 else 1

/-- `ptr::copy(src, dst, count)` on the buffer (memmove semantics: the
source range is read from the pre-state).  Writes outside the buffer are
dropped, reads outside the buffer produce `none` (in the real program both
are undefined behaviour). -/
def cpy (buf : List (Option α)) (src dst : Nat) : Nat → List (Option α)
  | 0 => buf
  | n + 1 => (cpy buf src dst n).set (dst + n) (buf.getD (src + n) none)

/-- `SmallerVec::grow` (src/lib.rs line 116), parametrized by the element
size `sz`.  Panics with capacity overflow when `cap == MAX`; first
allocation uses `FIRST_ALLOC_SIZE`; otherwise the saturating double. -/
def grow (w sz : Nat) (s : SmallerVec α) : Option Fatal × SmallerVec α :=
  if s.cap = MAX w then (some .capacityOverflow, s)
  else if s.cap = 0 then
    let nc := intFromUsize w (FIRST_ALLOC_SIZE sz)
    (none, { buf := List.replicate nc none, len := s.len, cap := nc })
  else
    let nc := intSatAdd w s.cap s.cap
    (none, { buf := s.buf ++ List.replicate (nc - s.cap) none, len := s.len, cap := nc })

/-- `SmallerVec::push` (src/lib.rs line 64): grow when full, write at
slot `len`, then `len = len.add(ONE)` (unchecked). -/
def push (w sz : Nat) (s : SmallerVec α) (v : α) : Option Fatal × SmallerVec α :=
  match (if s.len = s.cap then grow w sz s else (none, s)) with
  | (some f, s1) => (some f, s1)
  | (none, s1) =>
      (none, { buf := s1.buf.set s1.len (some v), len := intAdd w s1.len 1, cap := s1.cap })

/-- `SmallerVec::pop` (src/lib.rs line 77): `none` when empty, else
`len = len.sub(ONE)` (unchecked) and read the slot at the new `len`. -/
def pop (w : Nat) (s : SmallerVec α) : Option α × SmallerVec α :=
  if s.len = 0 then (none, s)
  else
    let len2 := intSub w s.len 1
    (s.buf.getD len2 none, { s with len := len2 })

/-- `SmallerVec::insert` (src/lib.rs line 154): grow when full, THEN check
`len < index` (panic), then `ptr::copy(insert_on, insert_on.add(1), len - index)`,
write the element at `index`, `len = len.add(ONE)`. -/
def insert (w sz : Nat) (s : SmallerVec α) (index : Nat) (v : α) :
    Option Fatal × SmallerVec α :=
  match (if s.cap = s.len then grow w sz s else (none, s)) with
  | (some f, s1) => (some f, s1)
  | (none, s1) =>
      let len := s1.len
      if len < index then (some (.assertFailed index len), s1)
      else
        let buf2 := cpy s1.buf index (index + 1) (len - index)
        (none, { buf := buf2.set index (some v), len := intAdd w len 1, cap := s1.cap })

/-- `SmallerVec::remove` (src/lib.rs line 177): check `len < index` (panic),
`len = len.sub(ONE)` (unchecked), read `p = base.add(index)`, then
`ptr::copy(p.add(index + 1), p, len - index)` — i.e. source offset
`index + (index + 1)` from the base, count `len - index` with the
pre-decrement `len`.  Returns (panic?, element read, post state). -/
def remove (w : Nat) (s : SmallerVec α) (index : Nat) :
    Option Fatal × Option α × SmallerVec α :=
  let len := s.len
  if len < index then (some (.assertFailed index len), none, s)
  else
    let len2 := intSub w s.len 1
    let result := s.buf.getD index none
    let buf2 := cpy s.buf (index + (index + 1)) index (len - index)
    (none, result, { buf := buf2, len := len2, cap := s.cap })

/-- `SmallerVec::extend_from_slice` (src/lib.rs line 199): push each
element in order. -/
def extend_from_slice (w sz : Nat) (s : SmallerVec α) :
    List α → Option Fatal × SmallerVec α
  | [] => (none, s)
  | v :: rest =>
      match push w sz s v with
      | (some f, s1) => (some f, s1)
      | (none, s1) => extend_from_slice w sz s1 rest

/-- The live elements (slots `[0, len)`) of a container. -/
def live (s : SmallerVec α) : List (Option α) := s.buf.take s.len

/-- Well-formedness of a container of width `w`: the buffer has exactly
`cap` slots, `len ≤ cap ≤ MAX w`, and every live slot is initialized. -/
def WF (w : Nat) (s : SmallerVec α) : Prop :=
  s.buf.length = s.cap ∧ s.len ≤ s.cap ∧ s.cap ≤ MAX w ∧
    ∀ i, i < s.len → (s.buf.getD i none).isSome = true

instance (w : Nat) (s : SmallerVec Nat) : Decidable (WF w s) := by
  unfold WF; infer_instance

/-- The shape part of well-formedness (no slot-liveness requirement): the
buffer has exactly `cap` slots and `len ≤ cap ≤ MAX w`.  (`remove`
preserves only this part: it can destroy liveness of live slots.) -/
def WFShape (w : Nat) (s : SmallerVec α) : Prop :=
  s.buf.length = s.cap ∧ s.len ≤ s.cap ∧ s.cap ≤ MAX w

instance (w : Nat) (s : SmallerVec Nat) : Decidable (WFShape w s) := by
  unfold WFShape; infer_instance

/-! ## Operation sequences

A public-operation sequence against a container, executed from the empty
container.  The runner also tracks the counters needed by the spec's
net-count invariant, and a flag `arithOk` recording whether every
unchecked `Int::add` / `Int::sub` executed so far stayed in range
(`add` never exceeding `MAX`, `sub` never going below `ZERO`). -/

/-- A call to one of the public mutating operations. -/
inductive Op (α : Type) where
  | push (v : α) : Op α
  | pop : Op α
  | insert (i : Nat) (v : α) : Op α
  | remove (i : Nat) : Op α
  | extend (vs : List α) : Op α
deriving DecidableEq, Repr

/-- Whether the unchecked `len.add(ONE)` reached inside `push` (if it is
reached at all) stays in range. -/
def pushArithOk (w sz : Nat) (s : SmallerVec α) : Bool :=
  match (if s.len = s.cap then grow w sz s else (none, s)) with
  | (some _, _) => true
  | (none, s1) => decide (s1.len + 1 ≤ MAX w)

/-- Whether the unchecked `len.sub(ONE)` reached inside `pop` (if reached)
stays in range. -/
def popArithOk (s : SmallerVec α) : Bool :=
  if s.len = 0 then true else decide (1 ≤ s.len)

/-- Whether the unchecked `len.add(ONE)` reached inside `insert` (if
reached) stays in range. -/
def insertArithOk (w sz : Nat) (s : SmallerVec α) (index : Nat) : Bool :=
  match (if s.cap = s.len then grow w sz s else (none, s)) with
  | (some _, _) => true
  | (none, s1) => if s1.len < index then true else decide (s1.len + 1 ≤ MAX w)

/-- Whether the unchecked `len.sub(ONE)` reached inside `remove` (if
reached) stays in range. -/
def removeArithOk (s : SmallerVec α) (index : Nat) : Bool :=
  if s.len < index then true else decide (1 ≤ s.len)

/-- Range tracking for the pushes performed by `extend_from_slice`. -/
def extendArithOk (w sz : Nat) (s : SmallerVec α) : List α → Bool
  | [] => true
  | v :: rest =>
      match push w sz s v with
      | (some _, _) => pushArithOk w sz s
      | (none, s1) => pushArithOk w sz s && extendArithOk w sz s1 rest

/-- Execution trace: current container, count of successful element
additions (push/insert/extend) and removals (pop/remove), and whether all
unchecked narrow-index arithmetic stayed in range so far. -/
structure Trace (α : Type) where
  s : SmallerVec α
  adds : Nat
  drops : Nat
  arithOk : Bool
deriving DecidableEq, Repr

/-- Execute one operation call on a trace.  On a fatal outcome the trace
carries the state as it stands when the panic is raised. -/
def step (w sz : Nat) (t : Trace α) : Op α → Option Fatal × Trace α
  | .push v =>
      let ok := t.arithOk && pushArithOk w sz t.s
      match push w sz t.s v with
      | (some f, s2) => (some f, { t with s := s2, arithOk := ok })
      | (none, s2) => (none, { s := s2, adds := t.adds + 1, drops := t.drops, arithOk := ok })
  | .pop =>
      let d := if t.s.len = 0 then 0 else 1
      (none, { s := (pop w t.s).2, adds := t.adds, drops := t.drops + d,
               arithOk := t.arithOk && popArithOk t.s })
  | .insert i v =>
      let ok := t.arithOk && insertArithOk w sz t.s i
      match insert w sz t.s i v with
      | (some f, s2) => (some f, { t with s := s2, arithOk := ok })
      | (none, s2) => (none, { s := s2, adds := t.adds + 1, drops := t.drops, arithOk := ok })
  | .remove i =>
      let ok := t.arithOk && removeArithOk t.s i
      match remove w t.s i with
      | (some f, _, s2) => (some f, { t with s := s2, arithOk := ok })
      | (none, _, s2) => (none, { s := s2, adds := t.adds, drops := t.drops + 1, arithOk := ok })
  | .extend vs =>
      let ok := t.arithOk && extendArithOk w sz t.s vs
      match extend_from_slice w sz t.s vs with
      | (some f, s2) => (some f, { t with s := s2, arithOk := ok })
      | (none, s2) => (none, { s := s2, adds := t.adds + vs.length, drops := t.drops, arithOk := ok })

/-- Execute a list of operation calls, stopping at the first fatal one. -/
def run (w sz : Nat) (t : Trace α) : List (Op α) → Option Fatal × Trace α
  | [] => (none, t)
  | op :: rest =>
      match step w sz t op with
      | (some f, t2) => (some f, t2)
      | (none, t2) => run w sz t2 rest

/-- The trace of a freshly constructed empty container. -/
def init (α : Type) : Trace α := ⟨new α, 0, 0, true⟩

/-- The index precondition each call states for itself: `index ≤ len` for
`insert`; for `remove` the checked bound is `index ≤ len` (`strict :=
false`), the amended precondition is `index < len` (`strict := true`). -/
def preOk (strict : Bool) (s : SmallerVec α) : Op α → Bool
  | .insert i _ => decide (i ≤ s.len)
  | .remove i => if strict then decide (i < s.len) else decide (i ≤ s.len)
  | _ => true

/-- Every call of the sequence satisfies its precondition in the state in
which it is actually made (checked up to the first fatal call). -/
def safeSeq (w sz : Nat) (strict : Bool) (t : Trace α) : List (Op α) → Bool
  | [] => true
  | op :: rest =>
      preOk strict t.s op &&
        match step w sz t op with
        | (some _, _) => true
        | (none, t2) => safeSeq w sz strict t2 rest

/-! ## The consuming iterator -/

/-- `IntoIter<T>` (src/lib.rs line 246).  The source's `start`/`end`
pointers become buffer offsets (`stop` models the `end` field, which is
not a legal Lean name). -/
structure IntoIter (α : Type) where
  buf : List (Option α)
  cap : Nat
  start : Nat
  stop : Nat
deriving DecidableEq, Repr

/-- `IntoIterator::into_iter` (src/lib.rs line 256): transfer the buffer;
`start = ptr`, `end = ptr` when `cap == 0` else `ptr.add(len)`. -/
def into_iter (s : SmallerVec α) : IntoIter α :=
  { buf := s.buf, cap := s.cap, start := 0,
    stop := if s.cap = 0 then 0 else s.len }

/-- `Iterator::next` (src/lib.rs line 283): exhausted when
`start == end`; else read at `start` and advance it. -/
def IntoIter.next (it : IntoIter α) : Option (Option α) × IntoIter α :=
  if it.start = it.stop then (none, it)
  else (some (it.buf.getD it.start none), { it with start := it.start + 1 })

/-- `DoubleEndedIterator::next_back` (src/lib.rs line 301): exhausted when
`start == end`; else retreat `end` and read there. -/
def IntoIter.next_back (it : IntoIter α) : Option (Option α) × IntoIter α :=
  if it.start = it.stop then (none, it)
  else (some (it.buf.getD (it.stop - 1) none), { it with stop := it.stop - 1 })

/-- Drain the iterator by an interleaving of front (`true`) and back
(`false`) steps; returns the front-drained and back-drained elements, each
in yield order. -/
def drain (it : IntoIter α) : List Bool → List (Option α) × List (Option α)
  | [] => ([], [])
  | true :: cs =>
      match it.next with
      | (none, it2) => drain it2 cs
      | (some x, it2) => (x :: (drain it2 cs).1, (drain it2 cs).2)
  | false :: cs =>
      match it.next_back with
      | (none, it2) => drain it2 cs
      | (some x, it2) => ((drain it2 cs).1, x :: (drain it2 cs).2)

/-- The segment of a buffer between offsets `a` and `b`. -/
def seg (buf : List (Option α)) (a b : Nat) : List (Option α) :=
  (buf.drop a).take (b - a)

/-! ## Arithmetic and buffer lemmas -/

theorem intAdd_eq {w x y : Nat} (h : x + y < 2 ^ w) : intAdd w x y = x + y :=
  Nat.mod_eq_of_lt h

theorem intSub_one {w x : Nat} (h1 : 1 ≤ x) (h2 : x < 2 ^ w) : intSub w x 1 = x - 1 := by
  unfold intSub
  have hone : 1 % 2 ^ w = 1 := Nat.mod_eq_of_lt (by omega)
  rw [hone]
  have hx : x + 2 ^ w - 1 = (x - 1) + 2 ^ w := by omega
  rw [hx, Nat.add_mod_right, Nat.mod_eq_of_lt (by omega)]

theorem length_cpy (buf : List (Option α)) (src dst n : Nat) :
    (cpy buf src dst n).length = buf.length := by
  induction n with
  | zero => rfl
  | succ n ih => simp only [cpy, List.length_set, ih]

theorem getElem?_cpy (buf : List (Option α)) (src dst n j : Nat)
    (h : dst + n ≤ buf.length) :
    (cpy buf src dst n)[j]? =
      if dst ≤ j ∧ j < dst + n then some (buf.getD (src + (j - dst)) none)
      else buf[j]? := by
  induction n with
  | zero =>
      rw [if_neg (by omega)]; rfl
  | succ n ih =>
      have h' : dst + n ≤ buf.length := by omega
      by_cases hj : j = dst + n
      · subst hj
        rw [cpy, List.getElem?_set_self (by rw [length_cpy]; omega),
          if_pos ⟨by omega, by omega⟩]
        congr 2
        omega
      · rw [cpy, List.getElem?_set_ne (by omega : dst + n ≠ j), ih h']
        by_cases hw : dst ≤ j ∧ j < dst + n
        · rw [if_pos hw, if_pos ⟨hw.1, by omega⟩]
        · rw [if_neg hw, if_neg (by omega)]

theorem getD_cpy (buf : List (Option α)) (src dst n j : Nat)
    (h : dst + n ≤ buf.length) :
    (cpy buf src dst n).getD j none =
      if dst ≤ j ∧ j < dst + n then buf.getD (src + (j - dst)) none
      else buf.getD j none := by
  rw [List.getD_eq_getElem?_getD, getElem?_cpy buf src dst n j h]
  split
  · rfl
  · rw [List.getD_eq_getElem?_getD]

theorem FIRST_ALLOC_SIZE_cases (sz : Nat) :
    FIRST_ALLOC_SIZE sz = 8 ∨ FIRST_ALLOC_SIZE sz = 4 ∨ FIRST_ALLOC_SIZE sz = 1 := by
  unfold FIRST_ALLOC_SIZE; split_ifs <;> simp

theorem two_pow_big {w : Nat} (hw : 8 ≤ w) : 256 ≤ 2 ^ w := by
  calc (256 : Nat) = 2 ^ 8 := by norm_num
  _ ≤ 2 ^ w := Nat.pow_le_pow_right (by norm_num) hw

/-! ## Lemmas about `grow` -/

theorem grow_fatal {w sz : Nat} {s : SmallerVec α} (h : s.cap = MAX w) :
    grow w sz s = (some .capacityOverflow, s) := by
  unfold grow; rw [if_pos h]

theorem grow_zero {w sz : Nat} {s : SmallerVec α} (h0 : s.cap ≠ MAX w) (hz : s.cap = 0) :
    grow w sz s = (none,
      { buf := List.replicate (intFromUsize w (FIRST_ALLOC_SIZE sz)) none,
        len := s.len, cap := intFromUsize w (FIRST_ALLOC_SIZE sz) }) := by
  unfold grow; rw [if_neg h0, if_pos hz]

theorem grow_pos {w sz : Nat} {s : SmallerVec α} (h0 : s.cap ≠ MAX w) (hz : s.cap ≠ 0) :
    grow w sz s = (none,
      { buf := s.buf ++ List.replicate (intSatAdd w s.cap s.cap - s.cap) none,
        len := s.len, cap := intSatAdd w s.cap s.cap }) := by
  unfold grow; rw [if_neg h0, if_neg hz]

/-- With an allowed width (`8 ≤ w`), the first-allocation size is an exact
narrow value. -/
theorem intFromUsize_FA {w sz : Nat} (hw : 8 ≤ w) :
    intFromUsize w (FIRST_ALLOC_SIZE sz) = FIRST_ALLOC_SIZE sz := by
  have h256 := two_pow_big hw
  rcases FIRST_ALLOC_SIZE_cases sz with h | h | h <;>
    (rw [h]; exact Nat.mod_eq_of_lt (by omega))

theorem grow_cap (w sz : Nat) (s : SmallerVec α) (h : s.cap ≤ MAX w) :
    s.cap ≤ (grow w sz s).2.cap ∧ (grow w sz s).2.cap ≤ MAX w := by
  by_cases h1 : s.cap = MAX w
  · rw [grow_fatal h1]; exact ⟨le_rfl, h⟩
  by_cases h2 : s.cap = 0
  · rw [grow_zero h1 h2]
    have hlt : intFromUsize w (FIRST_ALLOC_SIZE sz) < 2 ^ w :=
      Nat.mod_lt _ (Nat.two_pow_pos w)
    have hM : MAX w = 2 ^ w - 1 := rfl
    dsimp only
    omega
  · rw [grow_pos h1 h2]
    have hmin : intSatAdd w s.cap s.cap = min (s.cap + s.cap) (MAX w) := rfl
    dsimp only
    rw [hmin]
    exact ⟨le_min (by omega) h, min_le_right _ _⟩

theorem grow_len (w sz : Nat) (s : SmallerVec α) : (grow w sz s).2.len = s.len := by
  unfold grow; split_ifs <;> rfl

theorem grow_shape (w sz : Nat) (s : SmallerVec α) (hw : 8 ≤ w) (hsh : WFShape w s) :
    (grow w sz s).2.len = s.len ∧ WFShape w (grow w sz s).2 ∧
      ((grow w sz s).1 = none → s.cap < (grow w sz s).2.cap) := by
  obtain ⟨hbl, hlc, hcm⟩ := hsh
  have h256 := two_pow_big hw
  have hM : MAX w = 2 ^ w - 1 := rfl
  have hlen : (grow w sz s).2.len = s.len := grow_len w sz s
  by_cases h1 : s.cap = MAX w
  · have hs : (grow w sz s).2 = s := by rw [grow_fatal h1]
    have hf : (grow w sz s).1 = some Fatal.capacityOverflow := by rw [grow_fatal h1]
    refine ⟨hlen, ?_, fun hnone => ?_⟩
    · rw [hs]; exact ⟨hbl, hlc, hcm⟩
    · rw [hf] at hnone; exact Option.noConfusion hnone
  by_cases h2 : s.cap = 0
  · have hcap : (grow w sz s).2.cap = FIRST_ALLOC_SIZE sz := by
      rw [grow_zero h1 h2]; exact intFromUsize_FA hw
    have hbuf : (grow w sz s).2.buf =
        List.replicate (intFromUsize w (FIRST_ALLOC_SIZE sz)) none := by
      rw [grow_zero h1 h2]
    have hFA : 1 ≤ FIRST_ALLOC_SIZE sz ∧ FIRST_ALLOC_SIZE sz ≤ 8 := by
      rcases FIRST_ALLOC_SIZE_cases sz with h | h | h <;> omega
    refine ⟨hlen, ⟨?_, ?_, ?_⟩, fun _ => ?_⟩
    · rw [hbuf, List.length_replicate, hcap, intFromUsize_FA hw]
    · rw [hlen, hcap]; omega
    · rw [hcap]; omega
    · rw [hcap]; omega
  · have hcap : (grow w sz s).2.cap = intSatAdd w s.cap s.cap := by
      rw [grow_pos h1 h2]
    have hbuf : (grow w sz s).2.buf =
        s.buf ++ List.replicate (intSatAdd w s.cap s.cap - s.cap) none := by
      rw [grow_pos h1 h2]
    have hmin : intSatAdd w s.cap s.cap = min (s.cap + s.cap) (MAX w) := rfl
    have hsat : s.cap < intSatAdd w s.cap s.cap ∧ intSatAdd w s.cap s.cap ≤ MAX w := by
      rw [hmin]
      rcases Nat.le_total (s.cap + s.cap) (MAX w) with hc | hc
      · rw [min_eq_left hc]; omega
      · rw [min_eq_right hc]; omega
    refine ⟨hlen, ⟨?_, ?_, ?_⟩, fun _ => ?_⟩
    · rw [hbuf, List.length_append, List.length_replicate, hbl, hcap]; omega
    · rw [hlen, hcap]; omega
    · rw [hcap]; exact hsat.2
    · rw [hcap]; exact hsat.1

/-! ## Capacity monotonicity through operation sequences -/

theorem push_cap (w sz : Nat) (s : SmallerVec α) (v : α) (h : s.cap ≤ MAX w) :
    s.cap ≤ (push w sz s v).2.cap ∧ (push w sz s v).2.cap ≤ MAX w := by
  unfold push
  by_cases hlc : s.len = s.cap
  · rw [if_pos hlc]
    rcases hgrow : grow w sz s with ⟨f, s1⟩
    have hg := grow_cap w sz s h
    rw [hgrow] at hg
    cases f <;> exact hg
  · rw [if_neg hlc]
    exact ⟨le_rfl, h⟩

theorem pop_cap (w : Nat) (s : SmallerVec α) : (pop w s).2.cap = s.cap := by
  unfold pop; split_ifs <;> rfl

theorem insert_cap (w sz : Nat) (s : SmallerVec α) (i : Nat) (v : α) (h : s.cap ≤ MAX w) :
    s.cap ≤ (insert w sz s i v).2.cap ∧ (insert w sz s i v).2.cap ≤ MAX w := by
  unfold insert
  by_cases hlc : s.cap = s.len
  · rw [if_pos hlc]
    rcases hgrow : grow w sz s with ⟨f, s1⟩
    have hg := grow_cap w sz s h
    rw [hgrow] at hg
    cases f
    · dsimp only
      split_ifs <;> exact hg
    · exact hg
  · rw [if_neg hlc]
    dsimp only
    split_ifs <;> exact ⟨le_rfl, h⟩

theorem remove_cap (w : Nat) (s : SmallerVec α) (i : Nat) :
    (remove w s i).2.2.cap = s.cap := by
  unfold remove; dsimp only; split_ifs <;> rfl

theorem extend_cap (w sz : Nat) (vs : List α) : ∀ s : SmallerVec α, s.cap ≤ MAX w →
    s.cap ≤ (extend_from_slice w sz s vs).2.cap ∧
      (extend_from_slice w sz s vs).2.cap ≤ MAX w := by
  induction vs with
  | nil => exact fun s h => ⟨le_rfl, h⟩
  | cons v rest ih =>
      intro s h
      have hp := push_cap w sz s v h
      rcases hpush : push w sz s v with ⟨f, s1⟩
      rw [hpush] at hp
      unfold extend_from_slice
      rw [hpush]
      cases f
      · have h2 := ih s1 hp.2
        exact ⟨le_trans hp.1 h2.1, h2.2⟩
      · exact hp

theorem step_cap (w sz : Nat) (t : Trace α) (op : Op α) (h : t.s.cap ≤ MAX w) :
    t.s.cap ≤ (step w sz t op).2.s.cap ∧ (step w sz t op).2.s.cap ≤ MAX w := by
  cases op with
  | push v =>
      have hp := push_cap w sz t.s v h
      rcases hpush : push w sz t.s v with ⟨f, s1⟩
      rw [hpush] at hp
      simp only [step]
      rw [hpush]
      cases f <;> exact hp
  | pop =>
      simp only [step]
      rw [pop_cap]
      exact ⟨le_rfl, h⟩
  | insert i v =>
      have hp := insert_cap w sz t.s i v h
      rcases hins : insert w sz t.s i v with ⟨f, s1⟩
      rw [hins] at hp
      simp only [step]
      rw [hins]
      cases f <;> exact hp
  | remove i =>
      have hp := remove_cap w t.s i
      rcases hrem : remove w t.s i with ⟨f, r, s1⟩
      rw [hrem] at hp
      simp only [step]
      rw [hrem]
      cases f <;> (dsimp only; rw [hp]; exact ⟨le_rfl, h⟩)
  | extend vs =>
      have hp := extend_cap w sz vs t.s h
      rcases hext : extend_from_slice w sz t.s vs with ⟨f, s1⟩
      rw [hext] at hp
      simp only [step]
      rw [hext]
      cases f <;> exact hp

theorem run_cap (w sz : Nat) (ops : List (Op α)) : ∀ t : Trace α, t.s.cap ≤ MAX w →
    t.s.cap ≤ (run w sz t ops).2.s.cap ∧ (run w sz t ops).2.s.cap ≤ MAX w := by
  induction ops with
  | nil => exact fun t h => ⟨le_rfl, h⟩
  | cons op rest ih =>
      intro t h
      have hs := step_cap w sz t op h
      rcases hstep : step w sz t op with ⟨f, t2⟩
      rw [hstep] at hs
      simp only [run]
      rw [hstep]
      cases f
      · have h2 := ih t2 hs.2
        exact ⟨le_trans hs.1 h2.1, h2.2⟩
      · exact hs

theorem run_append (w sz : Nat) (ops more : List (Op α)) : ∀ t : Trace α,
    run w sz t (ops ++ more) =
      match run w sz t ops with
      | (some f, t2) => (some f, t2)
      | (none, t2) => run w sz t2 more := by
  induction ops with
  | nil => intro t; rfl
  | cons op rest ih =>
      intro t
      rcases hstep : step w sz t op with ⟨f, t2⟩
      cases f
      · simp only [List.cons_append, run, hstep]
        exact ih t2
      · simp only [List.cons_append, run, hstep]

/-! ## Lemmas about `insert` -/

theorem take_eq_on {l1 l2 : List β} {n : Nat} (h : ∀ i, i < n → l1[i]? = l2[i]?) :
    l1.take n = l2.take n := by
  apply List.ext_getElem?
  intro m
  rw [List.getElem?_take, List.getElem?_take]
  split_ifs with hm
  · exact h m hm
  · rfl

/-- Successful `grow` keeps the buffer's occupied prefix (realloc copies
the old contents) and its new length matches the new capacity. -/
theorem grow_keep (w sz : Nat) (s : SmallerVec α) (hne : s.cap ≠ MAX w)
    (hbl : s.buf.length = s.cap) (hcm : s.cap ≤ MAX w) :
    (grow w sz s).1 = none ∧ (grow w sz s).2.buf.length = (grow w sz s).2.cap ∧
      ∀ j, j < s.buf.length → (grow w sz s).2.buf[j]? = s.buf[j]? := by
  by_cases h2 : s.cap = 0
  · have hbuf : (grow w sz s).2.buf =
        List.replicate (intFromUsize w (FIRST_ALLOC_SIZE sz)) none := by
      rw [grow_zero hne h2]
    have hcap : (grow w sz s).2.cap = intFromUsize w (FIRST_ALLOC_SIZE sz) := by
      rw [grow_zero hne h2]
    have hf : (grow w sz s).1 = none := by rw [grow_zero hne h2]
    refine ⟨hf, ?_, fun j hj => ?_⟩
    · rw [hbuf, hcap, List.length_replicate]
    · rw [hbl, h2] at hj
      exact absurd hj (Nat.not_lt_zero j)
  · have hbuf : (grow w sz s).2.buf =
        s.buf ++ List.replicate (intSatAdd w s.cap s.cap - s.cap) none := by
      rw [grow_pos hne h2]
    have hcap : (grow w sz s).2.cap = intSatAdd w s.cap s.cap := by
      rw [grow_pos hne h2]
    have hf : (grow w sz s).1 = none := by rw [grow_pos hne h2]
    have hle : s.cap ≤ intSatAdd w s.cap s.cap := le_min (by omega) hcm
    refine ⟨hf, ?_, fun j hj => ?_⟩
    · rw [hbuf, hcap, List.length_append, List.length_replicate, hbl]
      omega
    · rw [hbuf, List.getElem?_append, if_pos hj]

/-- Full behavior of `insert` on a well-formed container with `len < MAX`:
an index above `len` panics with the precondition failure, an index at
most `len` succeeds and bumps `len`, and inserting exactly at `len`
appends the element after the live prefix. -/
theorem insert_spec (w sz : Nat) (s : SmallerVec α) (i : Nat) (v : α)
    (hw : 8 ≤ w) (hwf : WF w s) (hlt : s.len < MAX w) :
    (s.len < i → (insert w sz s i v).1 = some (.assertFailed i s.len)) ∧
    (i ≤ s.len → (insert w sz s i v).1 = none ∧ (insert w sz s i v).2.len = s.len + 1) ∧
    (i = s.len → live (insert w sz s i v).2 = live s ++ [some v]) := by
  obtain ⟨hbl, hlc, hcm, hlive⟩ := hwf
  have hM : MAX w = 2 ^ w - 1 := rfl
  suffices h : ∃ s2 : SmallerVec α,
      (insert w sz s i v =
        if s.len < i then (some (.assertFailed i s.len), s2)
        else (none, { buf := (cpy s2.buf i (i + 1) (s.len - i)).set i (some v),
                      len := intAdd w s.len 1, cap := s2.cap })) ∧
      s2.buf.length = s2.cap ∧ s.len < s2.cap ∧ s2.cap ≤ MAX w ∧
      (∀ j, j < s.buf.length → s2.buf[j]? = s.buf[j]?) by
    obtain ⟨s2, heq, h1, h2, h3, h4⟩ := h
    have hadd : intAdd w s.len 1 = s.len + 1 := intAdd_eq (by omega)
    refine ⟨fun hgt => ?_, fun hle => ?_, fun hi => ?_⟩
    · rw [heq, if_pos hgt]
    · rw [heq, if_neg (by omega)]
      exact ⟨rfl, hadd⟩
    · subst hi
      rw [heq, if_neg (by omega)]
      unfold live
      show ((cpy s2.buf s.len (s.len + 1) (s.len - s.len)).set s.len (some v)).take
          (intAdd w s.len 1) = s.buf.take s.len ++ [some v]
      rw [Nat.sub_self, hadd]
      show (s2.buf.set s.len (some v)).take (s.len + 1) = s.buf.take s.len ++ [some v]
      rw [List.take_succ]
      congr 1
      · apply take_eq_on
        intro m hm
        rw [List.getElem?_set_ne (by omega), h4 m (by omega)]
      · rw [List.getElem?_set_self (by omega)]
        rfl
  by_cases hfull : s.cap = s.len
  · have hne : s.cap ≠ MAX w := by omega
    obtain ⟨hg1, hgbl, hgget⟩ := grow_keep w sz s hne hbl hcm
    have hglen : (grow w sz s).2.len = s.len := grow_len w sz s
    have hggt : s.cap < (grow w sz s).2.cap :=
      (grow_shape w sz s hw ⟨hbl, hlc, hcm⟩).2.2 hg1
    have hpair : grow w sz s = (none, (grow w sz s).2) := Prod.ext hg1 rfl
    refine ⟨(grow w sz s).2, ?_, hgbl, by omega, ?_, fun j hj => hgget j hj⟩
    · unfold insert
      rw [if_pos hfull, hpair]
      dsimp only
      rw [hglen]
    · exact (grow_shape w sz s hw ⟨hbl, hlc, hcm⟩).2.1.2.2
  · refine ⟨s, ?_, hbl, by omega, hcm, fun j _ => rfl⟩
    unfold insert
    rw [if_neg hfull]

/-! ## Claim theorems -/

/-- Claim C1: the claim states that `insert(i, v)` followed by `remove(i)`
returns `v` and restores the container.  The code refutes it: `remove`
copies from source offset `base + 2*index + 1` with count `len - index`
(instead of `base + index + 1` with count `len - index - 1`), so on the
container `[10, 20]`, `insert(1, 99)` followed by `remove(1)` returns `99`
but leaves live contents `[some 10, none]` — the element `20` is destroyed
and an uninitialized slot is exposed.  This theorem evaluates the model at
that failing input. -/
theorem claim1_roundtrip_broken :
    (live (push 8 1 (push 8 1 (new Nat) 10).2 20).2 = [some 10, some 20] ∧
      (push 8 1 (push 8 1 (new Nat) 10).2 20).2.len = 2) ∧
    (insert 8 1 (push 8 1 (push 8 1 (new Nat) 10).2 20).2 1 99).1 = none ∧
    (remove 8 (insert 8 1 (push 8 1 (push 8 1 (new Nat) 10).2 20).2 1 99).2 1).1 = none ∧
    (remove 8 (insert 8 1 (push 8 1 (push 8 1 (new Nat) 10).2 20).2 1 99).2 1).2.1 = some 99 ∧
    live (remove 8 (insert 8 1 (push 8 1 (push 8 1 (new Nat) 10).2 20).2 1 99).2 1).2.2 =
      [some 10, none] ∧
    (remove 8 (insert 8 1 (push 8 1 (push 8 1 (new Nat) 10).2 20).2 1 99).2 1).2.2.len = 2 := by
  decide

/-- Claim C2: the claim states `0 ≤ len ≤ cap ≤ MAX` and the net-count law
after every operation sequence.  The code refutes it: `remove`'s bound
check accepts `index == len`, so `remove(0)` on the freshly constructed
empty container (width 8) passes the check, the unchecked `len.sub(ONE)`
wraps, and the container ends with `len = 255 > cap = 0`, while the net
count of additions minus removals is `0 - 1`.  (The check contradicts the
code's own comment that removing past the end is not valid.)  This theorem
evaluates the model at that failing input. -/
theorem claim2_invariant_broken :
    (run 8 1 (init Nat) [Op.remove 0]).1 = none ∧
    (run 8 1 (init Nat) [Op.remove 0]).2.s.len = 255 ∧
    (run 8 1 (init Nat) [Op.remove 0]).2.s.cap = 0 ∧
    (run 8 1 (init Nat) [Op.remove 0]).2.adds = 0 ∧
    (run 8 1 (init Nat) [Op.remove 0]).2.drops = 1 := by
  decide

/-- Claim C3, counterexample: the claim states that when every call meets
its stated precondition (`index ≤ len` for insert and remove), the
unchecked narrow-index `add`/`sub` never leave the range, in particular
that `remove(0)` on the empty container never underflows `len`.  The
sequence `[remove 0]` from the empty container (width 8) satisfies the
stated precondition `0 ≤ len = 0`, completes without a fatal error, and
drives `Int::sub` below `ZERO` (the wrapped `len` is `255`). -/
theorem claim3_counterexample :
    safeSeq 8 1 false (init Nat) [Op.remove 0] = true ∧
    (run 8 1 (init Nat) [Op.remove 0]).1 = none ∧
    (run 8 1 (init Nat) [Op.remove 0]).2.arithOk = false ∧
    (run 8 1 (init Nat) [Op.remove 0]).2.s.len = 255 := by
  decide

/-- Claim C9: with 8-bit width and 1-byte elements, the element-size
heuristic gives `FIRST_ALLOC_SIZE = 8` (and `4` for sizes up to 1024,
else `1`); pushing 9 values sequentially from the empty container
allocates first at capacity exactly 8, and the 9th push grows the
capacity to exactly 16. -/
theorem claim9_growth_scenario :
    (FIRST_ALLOC_SIZE 1 = 8 ∧ FIRST_ALLOC_SIZE 2 = 4 ∧ FIRST_ALLOC_SIZE 1024 = 4 ∧
      FIRST_ALLOC_SIZE 1025 = 1) ∧
    (run 8 1 (init Nat) ((List.range 1).map Op.push)).2.s.cap = 8 ∧
    (run 8 1 (init Nat) ((List.range 8).map Op.push)).2.s.cap = 8 ∧
    (run 8 1 (init Nat) ((List.range 8).map Op.push)).2.s.len = 8 ∧
    (run 8 1 (init Nat) ((List.range 9).map Op.push)).1 = none ∧
    (run 8 1 (init Nat) ((List.range 9).map Op.push)).2.s.cap = 16 ∧
    (run 8 1 (init Nat) ((List.range 9).map Op.push)).2.s.len = 9 := by
  decide

/-- Claim C4: across every sequence of public operations from the empty
container, `cap` never decreases, and whenever growth runs on a container
with nonzero capacity `c < MAX` it succeeds and the new capacity is
exactly `c + c` saturated at `MAX w`. -/
theorem claim4_cap_monotone (w sz : Nat) (α : Type) :
    (∀ ops more : List (Op α),
        (run w sz (init α) ops).2.s.cap ≤ (run w sz (init α) (ops ++ more)).2.s.cap) ∧
    (∀ s : SmallerVec α, s.cap ≠ 0 → s.cap < MAX w →
        (grow w sz s).1 = none ∧ (grow w sz s).2.cap = min (s.cap + s.cap) (MAX w)) := by
  constructor
  · intro ops more
    rw [run_append]
    rcases hr : run w sz (init α) ops with ⟨f, t2⟩
    have hcap : t2.s.cap ≤ MAX w := by
      have h0 := run_cap w sz ops (init α) (Nat.zero_le _)
      rw [hr] at h0
      exact h0.2
    cases f
    · exact (run_cap w sz more t2 hcap).1
    · exact le_rfl
  · intro s h0 hlt
    rw [grow_pos (Nat.ne_of_lt hlt) h0]
    exact ⟨rfl, rfl⟩

/-- Witness for C4 at concrete inputs: one push then another never
shrinks `cap`, and growing a full one-slot container of width 8 doubles
the capacity to 2. -/
theorem claim4_witness :
    (run 8 1 (init Nat) [Op.push 5]).2.s.cap ≤
        (run 8 1 (init Nat) ([Op.push 5] ++ [Op.push 6])).2.s.cap ∧
    (grow 8 1 (⟨[some 3], 1, 1⟩ : SmallerVec Nat)).1 = none ∧
    (grow 8 1 (⟨[some 3], 1, 1⟩ : SmallerVec Nat)).2.cap = min (1 + 1) (MAX 8) :=
  ⟨(claim4_cap_monotone 8 1 Nat).1 [Op.push 5] [Op.push 6],
    (claim4_cap_monotone 8 1 Nat).2 ⟨[some 3], 1, 1⟩ (by decide) (by decide)⟩

/-- Claim C5: on a container whose capacity is already `MAX w` and which
is full (`len = cap`), `push` and `insert` both fail fatally with the
capacity-overflow condition, leaving the container untouched — they never
report success or clamp the capacity. -/
theorem claim5_capacity_overflow (w sz : Nat) (s : SmallerVec α) (v : α) (i : Nat)
    (hcap : s.cap = MAX w) (hfull : s.len = s.cap) :
    push w sz s v = (some .capacityOverflow, s) ∧
    insert w sz s i v = (some .capacityOverflow, s) := by
  constructor
  · unfold push
    rw [if_pos hfull, grow_fatal hcap]
  · unfold insert
    rw [if_pos hfull.symm, grow_fatal hcap]

/-- Witness for C5: a full width-2 container at `cap = MAX 2 = 3`. -/
theorem claim5_witness :
    push 2 1 (⟨[some 7, some 8, some 9], 3, 3⟩ : SmallerVec Nat) 0 =
        (some .capacityOverflow, ⟨[some 7, some 8, some 9], 3, 3⟩) ∧
    insert 2 1 (⟨[some 7, some 8, some 9], 3, 3⟩ : SmallerVec Nat) 1 0 =
        (some .capacityOverflow, ⟨[some 7, some 8, some 9], 3, 3⟩) :=
  claim5_capacity_overflow 2 1 ⟨[some 7, some 8, some 9], 3, 3⟩ 0 1 (by decide) (by decide)

/-- Claim C7: `pop` is total (it can never panic: its result type carries
no `Fatal`); on a well-formed container it returns the explicit empty
result exactly when `len = 0`, and otherwise decrements `len` by one and
returns the element stored at the new `len` (the previous last element),
leaving `buf` and `cap` unchanged. -/
theorem claim7_pop (w : Nat) (s : SmallerVec α) (hwf : WF w s) :
    ((pop w s).1 = none ↔ s.len = 0) ∧
    (s.len = 0 → (pop w s).2 = s) ∧
    (s.len ≠ 0 →
      (pop w s).1 = s.buf.getD (s.len - 1) none ∧
      (s.buf.getD (s.len - 1) none).isSome = true ∧
      (pop w s).2.len = s.len - 1 ∧
      (pop w s).2.buf = s.buf ∧ (pop w s).2.cap = s.cap) := by
  obtain ⟨hbl, hlc, hcm, hlive⟩ := hwf
  have hM : MAX w = 2 ^ w - 1 := rfl
  have hpow := Nat.two_pow_pos w
  by_cases h0 : s.len = 0
  · unfold pop
    rw [if_pos h0]
    refine ⟨⟨fun _ => h0, fun _ => rfl⟩, fun _ => rfl, fun hne => absurd h0 hne⟩
  · have hsub : intSub w s.len 1 = s.len - 1 := intSub_one (by omega) (by omega)
    have hpop : pop w s = (s.buf.getD (s.len - 1) none,
        { s with len := s.len - 1 }) := by
      unfold pop
      rw [if_neg h0]
      dsimp only
      rw [hsub]
    rw [hpop]
    have hsome : (s.buf.getD (s.len - 1) none).isSome = true := hlive _ (by omega)
    refine ⟨⟨fun hn => ?_, fun h => absurd h h0⟩, fun h => absurd h h0,
      fun _ => ⟨rfl, hsome, rfl, rfl, rfl⟩⟩
    have heq : s.buf.getD (s.len - 1) none = none := hn
    rw [heq] at hsome
    exact Bool.noConfusion hsome

/-- Witness for C7: popping `[5, 6]` returns `6` and leaves length 1;
popping the empty container returns the empty result. -/
theorem claim7_witness :
    (((pop 8 (⟨[some 5, some 6], 2, 2⟩ : SmallerVec Nat)).1 = none ↔ (2 : Nat) = 0) ∧
      ((2 : Nat) = 0 → (pop 8 (⟨[some 5, some 6], 2, 2⟩ : SmallerVec Nat)).2 =
        ⟨[some 5, some 6], 2, 2⟩) ∧
      ((2 : Nat) ≠ 0 →
        (pop 8 (⟨[some 5, some 6], 2, 2⟩ : SmallerVec Nat)).1 =
          [some 5, some 6].getD (2 - 1) none ∧
        (([some 5, some 6] : List (Option Nat)).getD (2 - 1) none).isSome = true ∧
        (pop 8 (⟨[some 5, some 6], 2, 2⟩ : SmallerVec Nat)).2.len = 2 - 1 ∧
        (pop 8 (⟨[some 5, some 6], 2, 2⟩ : SmallerVec Nat)).2.buf = [some 5, some 6] ∧
        (pop 8 (⟨[some 5, some 6], 2, 2⟩ : SmallerVec Nat)).2.cap = 2)) :=
  claim7_pop 8 ⟨[some 5, some 6], 2, 2⟩ (by decide)

/-- Claim C6: on a well-formed container with `len < MAX`, `insert(len, v)`
succeeds and appends `v` as the new last element, `insert(len + 1, v)`
fails fatally with the precondition violation, and `insert` raises that
fatal error exactly when `index > len`. -/
theorem claim6_insert_boundary (w sz : Nat) (s : SmallerVec α) (v : α)
    (hw : 8 ≤ w) (hwf : WF w s) (hlt : s.len < MAX w) :
    ((insert w sz s s.len v).1 = none ∧
      (insert w sz s s.len v).2.len = s.len + 1 ∧
      live (insert w sz s s.len v).2 = live s ++ [some v]) ∧
    (insert w sz s (s.len + 1) v).1 = some (.assertFailed (s.len + 1) s.len) ∧
    (∀ i : Nat, (insert w sz s i v).1 = some (.assertFailed i s.len) ↔ s.len < i) := by
  refine ⟨?_, ?_, fun i => ⟨fun heq => ?_, fun hgt => (insert_spec w sz s i v hw hwf hlt).1 hgt⟩⟩
  · obtain ⟨hab, hcd⟩ := (insert_spec w sz s s.len v hw hwf hlt).2
    exact ⟨(hab le_rfl).1, (hab le_rfl).2, hcd rfl⟩
  · exact (insert_spec w sz s (s.len + 1) v hw hwf hlt).1 (Nat.lt_succ_self _)
  · by_contra hle
    have h := ((insert_spec w sz s i v hw hwf hlt).2.1 (by omega)).1
    rw [heq] at h
    exact Option.noConfusion h

/-- Witness for C6 on the container `[9]` (width 8): inserting at index 1
appends, inserting at index 2 panics, and the panic happens exactly for
indices above 1. -/
theorem claim6_witness :
    ((insert 8 1 (⟨[some 9, none, none, none], 1, 4⟩ : SmallerVec Nat) 1 5).1 = none ∧
      (insert 8 1 (⟨[some 9, none, none, none], 1, 4⟩ : SmallerVec Nat) 1 5).2.len = 1 + 1 ∧
      live (insert 8 1 (⟨[some 9, none, none, none], 1, 4⟩ : SmallerVec Nat) 1 5).2 =
        live (⟨[some 9, none, none, none], 1, 4⟩ : SmallerVec Nat) ++ [some 5]) ∧
    (insert 8 1 (⟨[some 9, none, none, none], 1, 4⟩ : SmallerVec Nat) (1 + 1) 5).1 =
      some (.assertFailed (1 + 1) 1) ∧
    (∀ i : Nat, (insert 8 1 (⟨[some 9, none, none, none], 1, 4⟩ : SmallerVec Nat) i 5).1 =
      some (.assertFailed i 1) ↔ 1 < i) :=
  claim6_insert_boundary 8 1 ⟨[some 9, none, none, none], 1, 4⟩ 5 (by norm_num)
    (by decide) (by decide)

/-- Claim C10: calling `insert` with an out-of-range index (`index > len`)
on a full container (`len = cap`, with `cap < MAX` so growth can proceed)
grows the capacity — first allocation when `cap = 0`, saturating double
otherwise — and only then raises the fatal precondition violation: the
panic state has a strictly larger capacity. -/
theorem claim10_grow_before_check (w sz : Nat) (s : SmallerVec α) (i : Nat) (v : α)
    (hw : 8 ≤ w) (hsh : WFShape w s) (hfull : s.len = s.cap) (hcap : s.cap < MAX w)
    (hi : s.len < i) :
    (insert w sz s i v).1 = some (.assertFailed i s.len) ∧
    s.cap < (insert w sz s i v).2.cap ∧
    (insert w sz s i v).2.cap =
      (if s.cap = 0 then FIRST_ALLOC_SIZE sz else min (s.cap + s.cap) (MAX w)) := by
  have hne : s.cap ≠ MAX w := Nat.ne_of_lt hcap
  have hg1 : (grow w sz s).1 = none := by
    by_cases h2 : s.cap = 0
    · rw [grow_zero hne h2]
    · rw [grow_pos hne h2]
  have hlen1 : (grow w sz s).2.len = s.len := grow_len w sz s
  have hcapgt : s.cap < (grow w sz s).2.cap := (grow_shape w sz s hw hsh).2.2 hg1
  have hcapval : (grow w sz s).2.cap =
      (if s.cap = 0 then FIRST_ALLOC_SIZE sz else min (s.cap + s.cap) (MAX w)) := by
    by_cases h2 : s.cap = 0
    · rw [grow_zero hne h2, if_pos h2]
      exact intFromUsize_FA hw
    · rw [grow_pos hne h2, if_neg h2]
      exact rfl
  have hpair : grow w sz s = (none, (grow w sz s).2) := Prod.ext hg1 rfl
  unfold insert
  rw [if_pos hfull.symm, hpair]
  dsimp only
  rw [hlen1, if_pos hi]
  exact ⟨rfl, hcapgt, hcapval⟩

/-- Witness for C10: inserting at index 5 into the full one-slot container
`[4]` (width 8) panics with the index failure but only after doubling the
capacity to 2. -/
theorem claim10_witness :
    (insert 8 1 (⟨[some 4], 1, 1⟩ : SmallerVec Nat) 5 0).1 = some (.assertFailed 5 1) ∧
    1 < (insert 8 1 (⟨[some 4], 1, 1⟩ : SmallerVec Nat) 5 0).2.cap ∧
    (insert 8 1 (⟨[some 4], 1, 1⟩ : SmallerVec Nat) 5 0).2.cap =
      (if (1 : Nat) = 0 then FIRST_ALLOC_SIZE 1 else min (1 + 1) (MAX 8)) :=
  claim10_grow_before_check 8 1 ⟨[some 4], 1, 1⟩ 5 0 (by norm_num) (by decide)
    (by decide) (by decide) (by decide)

/-! ## Arithmetic-range tracking under the amended preconditions -/

theorem pushArithOk_true (w sz : Nat) (s : SmallerVec α) (hw : 8 ≤ w)
    (hsh : WFShape w s) : pushArithOk w sz s = true := by
  have hM : MAX w = 2 ^ w - 1 := rfl
  unfold pushArithOk
  by_cases hlc : s.len = s.cap
  · rw [if_pos hlc]
    rcases hgrow : grow w sz s with ⟨f, s1⟩
    have hshape := grow_shape w sz s hw hsh
    rw [hgrow] at hshape
    obtain ⟨hlen, ⟨hbl1, hlc1, hcm1⟩, hgt⟩ := hshape
    cases f
    · have h1 := hgt rfl
      have h2 : s1.len = s.len := hlen
      show decide (s1.len + 1 ≤ MAX w) = true
      exact decide_eq_true (by omega)
    · rfl
  · rw [if_neg hlc]
    obtain ⟨hbl, hlcc, hcm⟩ := hsh
    show decide (s.len + 1 ≤ MAX w) = true
    exact decide_eq_true (by omega)

theorem popArithOk_true (s : SmallerVec α) : popArithOk s = true := by
  unfold popArithOk
  split_ifs with h
  · rfl
  · exact decide_eq_true (by omega)

theorem insertArithOk_true (w sz : Nat) (s : SmallerVec α) (i : Nat) (hw : 8 ≤ w)
    (hsh : WFShape w s) : insertArithOk w sz s i = true := by
  have hM : MAX w = 2 ^ w - 1 := rfl
  unfold insertArithOk
  by_cases hfull : s.cap = s.len
  · rw [if_pos hfull]
    rcases hgrow : grow w sz s with ⟨f, s1⟩
    have hshape := grow_shape w sz s hw hsh
    rw [hgrow] at hshape
    obtain ⟨hlen, ⟨hbl1, hlc1, hcm1⟩, hgt⟩ := hshape
    cases f
    · have h1 := hgt rfl
      have h2 : s1.len = s.len := hlen
      dsimp only
      split_ifs with hidx
      · rfl
      · exact decide_eq_true (by omega)
    · rfl
  · rw [if_neg hfull]
    obtain ⟨hbl, hlcc, hcm⟩ := hsh
    dsimp only
    split_ifs with hidx
    · rfl
    · exact decide_eq_true (by omega)

theorem removeArithOk_true (s : SmallerVec α) (i : Nat) (h : i < s.len) :
    removeArithOk s i = true := by
  unfold removeArithOk
  rw [if_neg (by omega)]
  exact decide_eq_true (by omega)

/-! ## Shape preservation -/

theorem push_shape (w sz : Nat) (s : SmallerVec α) (v : α) (hw : 8 ≤ w)
    (hsh : WFShape w s) : WFShape w (push w sz s v).2 := by
  have hM : MAX w = 2 ^ w - 1 := rfl
  unfold push
  by_cases hlc : s.len = s.cap
  · rw [if_pos hlc]
    rcases hgrow : grow w sz s with ⟨f, s1⟩
    have hshape := grow_shape w sz s hw hsh
    rw [hgrow] at hshape
    obtain ⟨hlen, ⟨hbl1, hlc1, hcm1⟩, hgt⟩ := hshape
    cases f
    · have hgt2 : s.cap < s1.cap := hgt rfl
      have hlen2 : s1.len = s.len := hlen
      have hbl2 : s1.buf.length = s1.cap := hbl1
      have hcm2 : s1.cap ≤ MAX w := hcm1
      have hadd : intAdd w s1.len 1 = s1.len + 1 := intAdd_eq (by omega)
      refine ⟨?_, ?_, hcm2⟩
      · show (s1.buf.set s1.len (some v)).length = s1.cap
        rw [List.length_set]
        exact hbl2
      · show intAdd w s1.len 1 ≤ s1.cap
        rw [hadd]; omega
    · exact ⟨hbl1, hlc1, hcm1⟩
  · rw [if_neg hlc]
    obtain ⟨hbl, hlcc, hcm⟩ := hsh
    have hadd : intAdd w s.len 1 = s.len + 1 := intAdd_eq (by omega)
    refine ⟨?_, ?_, hcm⟩
    · show (s.buf.set s.len (some v)).length = s.cap
      rw [List.length_set]
      exact hbl
    · show intAdd w s.len 1 ≤ s.cap
      rw [hadd]; omega

theorem pop_shape (w : Nat) (s : SmallerVec α) (hsh : WFShape w s) :
    WFShape w (pop w s).2 := by
  obtain ⟨hbl, hlc, hcm⟩ := hsh
  have hM : MAX w = 2 ^ w - 1 := rfl
  unfold pop
  split_ifs with h0
  · exact ⟨hbl, hlc, hcm⟩
  · have hsub : intSub w s.len 1 = s.len - 1 := intSub_one (by omega) (by omega)
    refine ⟨hbl, ?_, hcm⟩
    show intSub w s.len 1 ≤ s.cap
    rw [hsub]; omega

theorem insert_shape (w sz : Nat) (s : SmallerVec α) (i : Nat) (v : α) (hw : 8 ≤ w)
    (hsh : WFShape w s) : WFShape w (insert w sz s i v).2 := by
  have hM : MAX w = 2 ^ w - 1 := rfl
  unfold insert
  by_cases hfull : s.cap = s.len
  · rw [if_pos hfull]
    rcases hgrow : grow w sz s with ⟨f, s1⟩
    have hshape := grow_shape w sz s hw hsh
    rw [hgrow] at hshape
    obtain ⟨hlen, ⟨hbl1, hlc1, hcm1⟩, hgt⟩ := hshape
    cases f
    · have hgt2 : s.cap < s1.cap := hgt rfl
      have hlen2 : s1.len = s.len := hlen
      have hbl2 : s1.buf.length = s1.cap := hbl1
      have hcm2 : s1.cap ≤ MAX w := hcm1
      dsimp only
      split_ifs with hidx
      · exact ⟨hbl1, hlc1, hcm1⟩
      · have hadd : intAdd w s1.len 1 = s1.len + 1 := intAdd_eq (by omega)
        refine ⟨?_, ?_, hcm2⟩
        · show ((cpy s1.buf i (i + 1) (s1.len - i)).set i (some v)).length = s1.cap
          rw [List.length_set, length_cpy]
          exact hbl2
        · show intAdd w s1.len 1 ≤ s1.cap
          rw [hadd]; omega
    · exact ⟨hbl1, hlc1, hcm1⟩
  · rw [if_neg hfull]
    obtain ⟨hbl, hlc, hcm⟩ := hsh
    dsimp only
    split_ifs with hidx
    · exact ⟨hbl, hlc, hcm⟩
    · have hadd : intAdd w s.len 1 = s.len + 1 := intAdd_eq (by omega)
      refine ⟨?_, ?_, hcm⟩
      · show ((cpy s.buf i (i + 1) (s.len - i)).set i (some v)).length = s.cap
        rw [List.length_set, length_cpy]
        exact hbl
      · show intAdd w s.len 1 ≤ s.cap
        rw [hadd]; omega

theorem remove_shape (w : Nat) (s : SmallerVec α) (i : Nat) (hsh : WFShape w s)
    (hpre : i < s.len) : WFShape w (remove w s i).2.2 := by
  obtain ⟨hbl, hlc, hcm⟩ := hsh
  have hM : MAX w = 2 ^ w - 1 := rfl
  unfold remove
  dsimp only
  rw [if_neg (by omega)]
  have hsub : intSub w s.len 1 = s.len - 1 := intSub_one (by omega) (by omega)
  refine ⟨?_, ?_, hcm⟩
  · show (cpy s.buf (i + (i + 1)) i (s.len - i)).length = s.cap
    rw [length_cpy]
    exact hbl
  · show intSub w s.len 1 ≤ s.cap
    rw [hsub]; omega

theorem extend_ok (w sz : Nat) (vs : List α) (hw : 8 ≤ w) : ∀ s : SmallerVec α,
    WFShape w s →
    extendArithOk w sz s vs = true ∧ WFShape w (extend_from_slice w sz s vs).2 := by
  induction vs with
  | nil => exact fun s hsh => ⟨rfl, hsh⟩
  | cons v rest ih =>
      intro s hsh
      have hpok := pushArithOk_true w sz s hw hsh
      have hps := push_shape w sz s v hw hsh
      rcases hpush : push w sz s v with ⟨f, s1⟩
      rw [hpush] at hps
      unfold extendArithOk extend_from_slice
      rw [hpush]
      cases f
      · have h2 := ih s1 hps
        constructor
        · show (pushArithOk w sz s && extendArithOk w sz s1 rest) = true
          rw [hpok, h2.1]
          rfl
        · exact h2.2
      · exact ⟨hpok, hps⟩

theorem step_safe (w sz : Nat) (t : Trace α) (op : Op α) (hw : 8 ≤ w)
    (hsh : WFShape w t.s) (hpre : preOk true t.s op = true) :
    (step w sz t op).2.arithOk = t.arithOk ∧
      ((step w sz t op).1 = none → WFShape w (step w sz t op).2.s) := by
  cases op with
  | push v =>
      have hok := pushArithOk_true w sz t.s hw hsh
      have hps := push_shape w sz t.s v hw hsh
      rcases hpush : push w sz t.s v with ⟨f, s1⟩
      rw [hpush] at hps
      simp only [step]
      rw [hpush]
      cases f
      · refine ⟨?_, fun _ => hps⟩
        show (t.arithOk && pushArithOk w sz t.s) = t.arithOk
        rw [hok, Bool.and_true]
      · refine ⟨?_, fun h => Option.noConfusion h⟩
        show (t.arithOk && pushArithOk w sz t.s) = t.arithOk
        rw [hok, Bool.and_true]
  | pop =>
      have hok := popArithOk_true t.s
      have hps := pop_shape w t.s hsh
      simp only [step]
      refine ⟨?_, fun _ => hps⟩
      show (t.arithOk && popArithOk t.s) = t.arithOk
      rw [hok, Bool.and_true]
  | insert i v =>
      have hok := insertArithOk_true w sz t.s i hw hsh
      have hps := insert_shape w sz t.s i v hw hsh
      rcases hins : insert w sz t.s i v with ⟨f, s1⟩
      rw [hins] at hps
      simp only [step]
      rw [hins]
      cases f
      · refine ⟨?_, fun _ => hps⟩
        show (t.arithOk && insertArithOk w sz t.s i) = t.arithOk
        rw [hok, Bool.and_true]
      · refine ⟨?_, fun h => Option.noConfusion h⟩
        show (t.arithOk && insertArithOk w sz t.s i) = t.arithOk
        rw [hok, Bool.and_true]
  | remove i =>
      have hi : i < t.s.len := of_decide_eq_true hpre
      have hok := removeArithOk_true t.s i hi
      have hps := remove_shape w t.s i hsh hi
      rcases hrem : remove w t.s i with ⟨f, r, s1⟩
      rw [hrem] at hps
      simp only [step]
      rw [hrem]
      cases f
      · refine ⟨?_, fun _ => hps⟩
        show (t.arithOk && removeArithOk t.s i) = t.arithOk
        rw [hok, Bool.and_true]
      · refine ⟨?_, fun h => Option.noConfusion h⟩
        show (t.arithOk && removeArithOk t.s i) = t.arithOk
        rw [hok, Bool.and_true]
  | extend vs =>
      have hx := extend_ok w sz vs hw t.s hsh
      rcases hext : extend_from_slice w sz t.s vs with ⟨f, s1⟩
      have hx2 := hx.2
      rw [hext] at hx2
      simp only [step]
      rw [hext]
      cases f
      · refine ⟨?_, fun _ => hx2⟩
        show (t.arithOk && extendArithOk w sz t.s vs) = t.arithOk
        rw [hx.1, Bool.and_true]
      · refine ⟨?_, fun h => Option.noConfusion h⟩
        show (t.arithOk && extendArithOk w sz t.s vs) = t.arithOk
        rw [hx.1, Bool.and_true]

theorem run_safe (w sz : Nat) (ops : List (Op α)) (hw : 8 ≤ w) : ∀ t : Trace α,
    WFShape w t.s → t.arithOk = true → safeSeq w sz true t ops = true →
    (run w sz t ops).2.arithOk = true := by
  induction ops with
  | nil => exact fun t _ hok _ => hok
  | cons op rest ih =>
      intro t hsh hok hsafe
      rcases hstep : step w sz t op with ⟨f, t2⟩
      unfold safeSeq at hsafe
      rw [hstep, Bool.and_eq_true] at hsafe
      obtain ⟨hpre, hrest⟩ := hsafe
      have hstepok := step_safe w sz t op hw hsh hpre
      rw [hstep] at hstepok
      simp only [run]
      rw [hstep]
      have harith : t2.arithOk = t.arithOk := hstepok.1
      cases f
      · exact ih t2 (hstepok.2 rfl) (harith.trans hok) hrest
      · show t2.arithOk = true
        exact harith.trans hok

/-- Claim C3 (amended): the stated precondition `index ≤ len` does NOT
keep the unchecked arithmetic in range (see the counterexample); under the
amended precondition — `insert` called with `index ≤ len` and `remove`
called with `index < len` — every unchecked narrow-index `add`/`sub` in
every operation sequence from the empty container stays in range: `sub`
is never applied below `ZERO` and `add` never beyond `MAX`. -/
theorem claim3_amended_arith_in_range (w sz : Nat) (α : Type) (ops : List (Op α))
    (hw : 8 ≤ w) (hsafe : safeSeq w sz true (init α) ops = true) :
    (run w sz (init α) ops).2.arithOk = true :=
  run_safe w sz ops hw (init α) ⟨rfl, Nat.le_refl 0, Nat.zero_le _⟩ rfl hsafe

/-- Witness for the amended C3 on a concrete safe sequence of pushes,
inserts, removes, pops and an extend. -/
theorem claim3_witness :
    safeSeq 8 1 true (init Nat)
      [Op.push 3, Op.insert 1 4, Op.remove 0, Op.pop, Op.extend [7, 8]] = true ∧
    (run 8 1 (init Nat)
      [Op.push 3, Op.insert 1 4, Op.remove 0, Op.pop, Op.extend [7, 8]]).2.arithOk = true :=
  ⟨by decide,
    claim3_amended_arith_in_range 8 1 Nat
      [Op.push 3, Op.insert 1 4, Op.remove 0, Op.pop, Op.extend [7, 8]]
      (by norm_num) (by decide)⟩

/-! ## The consuming iterator: draining from both ends -/

theorem next_stop {it : IntoIter α} (h : it.start = it.stop) : it.next = (none, it) := by
  unfold IntoIter.next
  rw [if_pos h]

theorem next_go {it : IntoIter α} (h : ¬it.start = it.stop) :
    it.next = (some (it.buf.getD it.start none), { it with start := it.start + 1 }) := by
  unfold IntoIter.next
  rw [if_neg h]

theorem next_back_stop {it : IntoIter α} (h : it.start = it.stop) :
    it.next_back = (none, it) := by
  unfold IntoIter.next_back
  rw [if_pos h]

theorem next_back_go {it : IntoIter α} (h : ¬it.start = it.stop) :
    it.next_back = (some (it.buf.getD (it.stop - 1) none), { it with stop := it.stop - 1 }) := by
  unfold IntoIter.next_back
  rw [if_neg h]

theorem seg_cons {buf : List (Option α)} {a b : Nat} (hab : a < b) (hb : b ≤ buf.length) :
    seg buf a b = buf.getD a none :: seg buf (a + 1) b := by
  unfold seg
  have ha : a < buf.length := by omega
  rw [List.drop_eq_getElem_cons ha]
  have hsub : b - a = (b - (a + 1)) + 1 := by omega
  rw [hsub, List.take_succ_cons]
  congr 1
  rw [List.getD_eq_getElem?_getD, List.getElem?_eq_getElem ha]
  rfl

theorem seg_snoc {buf : List (Option α)} {a b : Nat} (hab : a < b) (hb : b ≤ buf.length) :
    seg buf a b = seg buf a (b - 1) ++ [buf.getD (b - 1) none] := by
  unfold seg
  have hsub : b - a = (b - 1 - a) + 1 := by omega
  rw [hsub, List.take_succ]
  congr 1
  rw [List.getElem?_drop]
  have hidx : a + (b - 1 - a) = b - 1 := by omega
  rw [hidx, List.getElem?_eq_getElem (by omega : b - 1 < buf.length),
    List.getD_eq_getElem?_getD, List.getElem?_eq_getElem (by omega : b - 1 < buf.length)]
  rfl

theorem drain_spec (cs : List Bool) : ∀ it : IntoIter α,
    it.start ≤ it.stop → it.stop ≤ it.buf.length → it.stop - it.start ≤ cs.length →
    (drain it cs).1 ++ (drain it cs).2.reverse = seg it.buf it.start it.stop := by
  induction cs with
  | nil =>
      intro it h1 h2 h3
      have h3z : it.stop - it.start ≤ 0 := h3
      have h0 : it.stop - it.start = 0 := by omega
      unfold drain seg
      rw [h0]
      rfl
  | cons c cs ih =>
      intro it h1 h2 h3
      have hlen : cs.length + 1 = (c :: cs).length := rfl
      cases c
      · by_cases hse : it.start = it.stop
        · have hd : drain it (false :: cs) = drain it cs := by
            rw [drain.eq_3, next_back_stop hse]
          rw [hd]
          exact ih it h1 h2 (by omega)
        · have hlt : it.start < it.stop := by omega
          have hd : drain it (false :: cs) =
              ((drain { it with stop := it.stop - 1 } cs).1,
                it.buf.getD (it.stop - 1) none ::
                  (drain { it with stop := it.stop - 1 } cs).2) := by
            rw [drain.eq_3, next_back_go hse]
          have ihb : (drain { it with stop := it.stop - 1 } cs).1 ++
              (drain { it with stop := it.stop - 1 } cs).2.reverse =
              seg it.buf it.start (it.stop - 1) :=
            ih { it with stop := it.stop - 1 }
              (by show it.start ≤ it.stop - 1; omega)
              (by show it.stop - 1 ≤ it.buf.length; omega)
              (by show it.stop - 1 - it.start ≤ cs.length; omega)
          rw [hd]
          dsimp only
          rw [List.reverse_cons, ← List.append_assoc, ihb, ← seg_snoc hlt h2]
      · by_cases hse : it.start = it.stop
        · have hd : drain it (true :: cs) = drain it cs := by
            rw [drain.eq_2, next_stop hse]
          rw [hd]
          exact ih it h1 h2 (by omega)
        · have hlt : it.start < it.stop := by omega
          have hd : drain it (true :: cs) =
              (it.buf.getD it.start none :: (drain { it with start := it.start + 1 } cs).1,
                (drain { it with start := it.start + 1 } cs).2) := by
            rw [drain.eq_2, next_go hse]
          have ihb : (drain { it with start := it.start + 1 } cs).1 ++
              (drain { it with start := it.start + 1 } cs).2.reverse =
              seg it.buf (it.start + 1) it.stop :=
            ih { it with start := it.start + 1 }
              (by show it.start + 1 ≤ it.stop; omega)
              (by show it.stop ≤ it.buf.length; omega)
              (by show it.stop - (it.start + 1) ≤ cs.length; omega)
          rw [hd]
          dsimp only
          rw [List.cons_append, ihb, ← seg_cons hlt h2]

/-- Claim C8: converting a well-formed container holding `n = len` live
elements into the consuming iterator and draining it by ANY interleaving
of front and back steps (at least `n` steps) yields exactly the live
elements, each exactly once: the front-drained part followed by the
reverse of the back-drained part reconstitutes the live contents in
original order (so front yields come out forward, back yields reversed);
and both ends signal exhaustion as soon as `start = end`. -/
theorem claim8_iterator_drain (w : Nat) (s : SmallerVec α) (cs : List Bool)
    (hwf : WF w s) (hn : s.len ≤ cs.length) :
    ((drain (into_iter s) cs).1 ++ (drain (into_iter s) cs).2.reverse = live s) ∧
    (∀ it : IntoIter α, it.start = it.stop → it.next.1 = none ∧ it.next_back.1 = none) := by
  obtain ⟨hbl, hlc, hcm, hlive⟩ := hwf
  constructor
  · by_cases hc : s.cap = 0
    · have hit : into_iter s = ⟨s.buf, s.cap, 0, 0⟩ := by
        unfold into_iter
        rw [if_pos hc]
      have hlen0 : s.len = 0 := by omega
      rw [hit, drain_spec cs ⟨s.buf, s.cap, 0, 0⟩ (Nat.le_refl 0)
        (Nat.zero_le _) (by show (0 : Nat) - 0 ≤ cs.length; omega)]
      unfold seg live
      rw [hlen0]
      rfl
    · have hit : into_iter s = ⟨s.buf, s.cap, 0, s.len⟩ := by
        unfold into_iter
        rw [if_neg hc]
      rw [hit, drain_spec cs ⟨s.buf, s.cap, 0, s.len⟩ (Nat.zero_le _)
        (by show s.len ≤ s.buf.length; omega) (by show s.len - 0 ≤ cs.length; omega)]
      unfold seg live
      rw [List.drop_zero, Nat.sub_zero]
  · intro it h
    constructor
    · rw [next_stop h]
    · rw [next_back_stop h]

/-- Witness for C8: draining `[1, 2, 3]` front, back, front yields
`[1, 2]` from the front and `[3]` from the back, together the whole
container; an iterator with `start = end` signals exhaustion at both
ends. -/
theorem claim8_witness :
    ((drain (into_iter (⟨[some 1, some 2, some 3], 3, 3⟩ : SmallerVec Nat))
        [true, false, true]).1 ++
      (drain (into_iter (⟨[some 1, some 2, some 3], 3, 3⟩ : SmallerVec Nat))
        [true, false, true]).2.reverse =
      live (⟨[some 1, some 2, some 3], 3, 3⟩ : SmallerVec Nat)) ∧
    ((⟨[], 0, 1, 1⟩ : IntoIter Nat).next.1 = none ∧
      (⟨[], 0, 1, 1⟩ : IntoIter Nat).next_back.1 = none) :=
  ⟨(claim8_iterator_drain 8 ⟨[some 1, some 2, some 3], 3, 3⟩ [true, false, true]
      (by decide) (by decide)).1,
    (claim8_iterator_drain 8 ⟨[some 1, some 2, some 3], 3, 3⟩ [true, false, true]
      (by decide) (by decide)).2 ⟨[], 0, 1, 1⟩ rfl⟩

end SmallerVecModel
